import Mathlib

/-!
Verification of the smartwatchfiles generator pipeline.

This file gives a shallow embedding of the parts of the repository that the
verified properties talk about: the section parser (`models/section.py`), the
block splitter (`ecs/utils/generator_parser.py`), the reconciliation pass
(`ecs/systems/generator_parsing_system.py`), the directive dispatch and the
`run`/`gen` handlers (`ecs/systems/command_system.py`), and the renderer
(`ecs/systems/render_system.py`).  External effects (child processes, the LLM
backend, the filesystem) are passed in as explicit oracle values, following
the boundary specification of the collaborators.
-/

deriving instance DecidableEq for Except

/-! ## Python string primitives

The source manipulates Python strings with `str.strip`, `str.split(maxsplit=1)`
(whitespace split) and `str.split(sep, 1)`.  These are embedded below on
`List Char` / `String`. -/

/-- Character class of Python `str.strip()` / `str.split()` whitespace
(space, tab, newline, carriage return, vertical tab, form feed). -/
def pyIsSpace (c : Char) : Bool :=
  c == ' ' || c == '\t' || c == '\n' || c == '\r' || c == '\x0b' || c == '\x0c'

/-- Remove trailing whitespace characters from a character list. -/
def dropTrail (l : List Char) : List Char :=
  (l.reverse.dropWhile pyIsSpace).reverse

/-- Remove leading and trailing whitespace from a character list:
the semantics of Python `str.strip()`. -/
def stripChars (l : List Char) : List Char :=
  dropTrail (l.dropWhile pyIsSpace)

/-- Python `s.strip()`. -/
def pyStrip (s : String) : String :=
  ⟨stripChars s.data⟩

/-- Python `s.split(maxsplit=1)`: skip leading whitespace, take the first
whitespace-free token, then the remainder with its leading whitespace
removed.  Returns `[]` for an all-whitespace string, a one-element list when
nothing follows the first token. -/
def pySplitOnceWs (s : String) : List String :=
  let cs := s.data.dropWhile pyIsSpace
  if cs.isEmpty then []
  else
    let tok := cs.takeWhile (fun c => !pyIsSpace c)
    let rest := (cs.dropWhile (fun c => !pyIsSpace c)).dropWhile pyIsSpace
    if rest.isEmpty then [⟨tok⟩] else [⟨tok⟩, ⟨rest⟩]

/-- Python `s.split(sep, 1)` for a single-character separator: one split at
the first occurrence, the whole string when the separator is absent. -/
def pySplitOnceChar (sep : Char) (s : String) : List String :=
  let pre := s.data.takeWhile (fun c => c ≠ sep)
  if pre.length = s.data.length then [s]
  else [⟨pre⟩, ⟨s.data.drop (pre.length + 1)⟩]

/-- Python `s.startswith(c)` for a one-character needle. -/
def pyStartsWith (c : Char) (s : String) : Bool :=
  s.data.head? == some c

/-! ## Section model and parser (`src/models/section.py`) -/

/-- Parsed block record, mirroring the `Section` class fields. The
`section_type` is `some "text"` or `some "command"` once classified
(`Section.SectionType` in the source), `none` for an all-label block. -/
structure Section where
  raw_text : String
  opening_labels : List String
  closing_labels : List String
  section_type : Option String
  command : Option String
  instruction : Option String
  parameters : List (String × List String)
  text_content : Option String
deriving DecidableEq, Repr

/-- States of the four-state line machine in `parse_lines`. -/
inductive PState where
  | start
  | command
  | parameters
  | text
deriving DecidableEq, Repr

/-- Result record of `parse_lines` (the seven-component tuple the source
returns). -/
structure ParseLinesResult where
  opening_labels : List String
  closing_labels : List String
  section_type : Option String
  command : Option String
  instruction : List String
  parameters : List (String × List String)
  text_content : List String
deriving DecidableEq, Repr

/-- Embedding of `add_parameter`: append the value to the first tuple whose
key matches, else append a new `(key, [value])` tuple at the end. -/
def add_parameter (parameters : List (String × List String)) (key value : String) :
    List (String × List String) :=
  match parameters with
  | [] => [(key, [value])]
  | (k, vs) :: rest =>
      if k = key then (k, vs ++ [value]) :: rest
      else (k, vs) :: add_parameter rest key value

/-- Embedding of `handle_start_state`.  Returns the next state together with
the updated section type, command, instruction, opening labels and text
content. -/
def handle_start_state (stripped_line : String) (section_type command : Option String)
    (instruction : List String) (opening_labels : List String) (text_content : List String) :
    PState × Option String × Option String × List String × List String × List String :=
  if pyStartsWith '/' stripped_line then
    (.start, section_type, command, instruction,
      opening_labels ++ [⟨stripped_line.data.drop 1⟩], text_content)
  else if pyStartsWith '?' stripped_line then
    match pySplitOnceWs stripped_line with
    | [] => (.command, some "command", some "", instruction, opening_labels, text_content)
    | [p0] => (.command, some "command", some ⟨p0.data.drop 1⟩, instruction,
        opening_labels, text_content)
    | p0 :: p1 :: _ => (.command, some "command", some ⟨p0.data.drop 1⟩,
        instruction ++ [p1], opening_labels, text_content)
  else
    (.text, some "text", command, instruction, opening_labels,
      text_content ++ [stripped_line])

/-- Embedding of `handle_command_state`: a line containing `=` opens the
parameter section, any other line extends the instruction. -/
def handle_command_state (stripped_line : String)
    (parameters : List (String × List String)) (instruction : List String) :
    PState × List (String × List String) × List String :=
  if stripped_line.data.contains '=' then
    match pySplitOnceChar '=' stripped_line with
    | [k, v] => (.parameters, add_parameter parameters k v, instruction)
    | _ => (.parameters, parameters, instruction)
  else
    (.command, parameters, instruction ++ [stripped_line])

/-- Embedding of `handle_parameters_state`.  A line opening with `\` is a
closing label, a line containing `=` is another parameter; any other line
raises `ValueError` in the source, embedded as `Except.error`. -/
def handle_parameters_state (stripped_line : String)
    (parameters : List (String × List String)) (closing_labels : List String) :
    Except String (PState × List (String × List String) × List String) :=
  if pyStartsWith '\\' stripped_line then
    .ok (.parameters, parameters, closing_labels ++ [⟨stripped_line.data.drop 1⟩])
  else if stripped_line.data.contains '=' then
    match pySplitOnceChar '=' stripped_line with
    | [k, v] => .ok (.parameters, add_parameter parameters k v, closing_labels)
    | _ => .ok (.parameters, parameters, closing_labels)
  else
    .error ("Unexpected line in parameters state: " ++ stripped_line)

/-- Embedding of `handle_text_state`: a line opening with `\` is a closing
label, everything else extends the prose content. -/
def handle_text_state (stripped_line : String) (closing_labels : List String)
    (text_content : List String) : PState × List String × List String :=
  if pyStartsWith '\\' stripped_line then
    (.text, closing_labels ++ [⟨stripped_line.data.drop 1⟩], text_content)
  else
    (.text, closing_labels, text_content ++ [stripped_line])

/-- Recursive core of `parse_lines`: every line is stripped and then fed to
the handler of the current state.  The `ValueError` of the parameters state
propagates out as `Except.error`, as it does in the source (no caller
catches it). -/
def parse_lines_go (state : PState) (opening_labels closing_labels : List String)
    (section_type command : Option String) (instruction : List String)
    (parameters : List (String × List String)) (text_content : List String) :
    List String → Except String ParseLinesResult
  | [] => .ok ⟨opening_labels, closing_labels, section_type, command,
      instruction, parameters, text_content⟩
  | line :: rest =>
    let stripped_line := pyStrip line
    match state with
    | .start =>
        match handle_start_state stripped_line section_type command instruction
            opening_labels text_content with
        | (st, ty, cmd, ins, ol, tc) =>
            parse_lines_go st ol closing_labels ty cmd ins parameters tc rest
    | .command =>
        match handle_command_state stripped_line parameters instruction with
        | (st, ps, ins) =>
            parse_lines_go st opening_labels closing_labels section_type command
              ins ps text_content rest
    | .parameters =>
        match handle_parameters_state stripped_line parameters closing_labels with
        | .error e => .error e
        | .ok (st, ps, cl) =>
            parse_lines_go st opening_labels cl section_type command instruction
              ps text_content rest
    | .text =>
        match handle_text_state stripped_line closing_labels text_content with
        | (st, cl, tc) =>
            parse_lines_go st opening_labels cl section_type command instruction
              parameters tc rest

/-- Embedding of `parse_lines`: run the state machine from the `start` state
with empty accumulators. -/
def parse_lines (lines : List String) : Except String ParseLinesResult :=
  parse_lines_go .start [] [] none none [] [] [] lines

/-- Split a character list at every newline, the semantics of Python
`s.split('\n')` (an empty input gives one empty piece). -/
def splitOnNlChars : List Char → List (List Char)
  | [] => [[]]
  | c :: t =>
    if c = '\n' then [] :: splitOnNlChars t
    else
      match splitOnNlChars t with
      | h :: r => (c :: h) :: r
      | [] => [[c]]

/-- Python `s.split('\n')` on strings. -/
def pySplitNl (s : String) : List String :=
  (splitOnNlChars s.data).map (fun p => ⟨p⟩)

/-- Embedding of `parse_section`: split the input on newlines, run
`parse_lines`, and build the `Section` record (text sections keep the joined
text content, command sections keep command, joined instruction and
parameters; an empty instruction list becomes `none`). -/
def parse_section (input_text : String) : Except String Section :=
  (parse_lines (pySplitNl input_text)).map fun r =>
    if r.section_type = some "text" then
      { raw_text := input_text
        opening_labels := r.opening_labels
        closing_labels := r.closing_labels
        section_type := r.section_type
        command := none
        instruction := none
        parameters := []
        text_content := some (String.intercalate "\n" r.text_content) }
    else
      { raw_text := input_text
        opening_labels := r.opening_labels
        closing_labels := r.closing_labels
        section_type := r.section_type
        command := r.command
        instruction :=
          if r.instruction.isEmpty then none
          else some (String.intercalate "\n" r.instruction)
        parameters := r.parameters
        text_content := none }

/-! ## Block splitter (`src/ecs/utils/generator_parser.py`)

`split_into_sections` strips the whole document and splits it with the regular
expression `\n\s*\n` (a newline, a greedy whitespace run, a newline).  A
leftmost match begins at a newline whose following whitespace run contains at
least one further newline, and the greedy run extends the separator through
the last newline of that run. -/

/-- Index of the last newline of a character list, if any. -/
def lastNlIdx (l : List Char) : Option Nat :=
  match l.reverse.findIdx? (fun c => c == '\n') with
  | none => none
  | some r => some (l.length - 1 - r)

/-- Leftmost match of the separator regex `\n\s*\n` in a character list:
returns the start index and the matched length. -/
def findSep : List Char → Option (Nat × Nat)
  | [] => none
  | c :: t =>
    if c = '\n' then
      let run := t.takeWhile pyIsSpace
      match lastNlIdx run with
      | some j => some (0, j + 2)
      | none => (findSep t).map (fun p => (p.1 + 1, p.2))
    else
      (findSep t).map (fun p => (p.1 + 1, p.2))

/-- Fuel-bounded splitting loop: cut the list at each leftmost separator
match.  The fuel is always sufficient because every separator consumes at
least two characters. -/
def regexSplitGo : Nat → List Char → List (List Char)
  | 0, cs => [cs]
  | fuel + 1, cs =>
    match findSep cs with
    | none => [cs]
    | some (s, l) => cs.take s :: regexSplitGo fuel (cs.drop (s + l))

/-- Embedding of `split_into_sections`: strip the content, split on blank
line separators, and strip every resulting raw-text piece. -/
def split_into_sections (content : String) : List String :=
  let base := stripChars content.data
  (regexSplitGo (base.length + 1) base).map (fun p => pyStrip ⟨p⟩)

/-! ## Label reference detection (`re.findall(r':([\w-]+):', s)` in
`src/ecs/systems/command_system.py`)

The command system treats a string as unresolved when the regular expression
`:([\w-]+):` matches somewhere.  The scanners below decide whether such a
match exists: a colon, a nonempty run of word characters or hyphens, then a
colon. -/

/-- Character class `[\w-]` of the label regex (ASCII word characters and
the hyphen). -/
def isLabelChar (c : Char) : Bool :=
  c.isAlphanum || c == '_' || c == '-'

/-- After at least one label character has been read: continue the run, and
succeed when the next non-label character is the closing colon. -/
def scanLabelTail : List Char → Bool
  | [] => false
  | c :: rest => if isLabelChar c then scanLabelTail rest else c == ':'

/-- Immediately after an opening colon: the run must be nonempty. -/
def scanLabelStart : List Char → Bool
  | [] => false
  | c :: rest => isLabelChar c && scanLabelTail rest

/-- Decide whether `:([\w-]+):` matches anywhere in the character list. -/
def hasLabelRefChars : List Char → Bool
  | [] => false
  | c :: rest => (c == ':' && scanLabelStart rest) || hasLabelRefChars rest

/-- Whether the string still contains a `:name:` label reference, the
condition the command system computes with `re.findall(r':([\w-]+):', s)`. -/
def hasLabelRef (s : String) : Bool :=
  hasLabelRefChars s.data

/-! ## Directive dispatch (`CommandSystem.update` in
`src/ecs/systems/command_system.py`)

The per-entity body of the update loop is embedded as a function of the
entity's components.  Handlers (`insert`/`gen`/`run`) write their own
rendered text and are embedded separately; here only the gating branches and
the dispatch decision are modelled. -/

/-- Component view of one directive entity as `CommandSystem.update` reads
it: the command name, the resolved instruction when an
`InstructionComponent` is present, and the resolved parameters when a
`ParametersComponent` is present. -/
structure CommandEntity where
  command : String
  render_instruction : Option String
  render_parameters : Option (List (String × List String))
deriving DecidableEq, Repr

/-- Nested parameter loop of `CommandSystem.update`: whether any resolved
parameter value still contains a `:name:` reference. -/
def paramsHaveUnresolved (ps : List (String × List String)) : Bool :=
  ps.any (fun p => p.2.any (fun v => hasLabelRef v))

/-- Outcome of one `CommandSystem.update` iteration for one entity:
`rendered` is the text written by a gating branch (`none` when control
reaches the dispatch `match`, whose handlers write their own output), and
`dispatched` is the command name reaching the dispatch `match` (`none` when
a gating branch fired `continue`). -/
structure UpdateResult where
  rendered : Option String
  dispatched : Option String
deriving DecidableEq, Repr

/-- Embedding of the per-entity body of `CommandSystem.update`:
a `gen` entity with no instruction component renders `?gen`; an entity whose
resolved instruction still contains a `:name:` marker renders the resolved
instruction itself; an entity with a parameter value still containing a
marker renders `?` + command; otherwise control reaches the dispatch
`match` on the command name. -/
def commandSystemStep (e : CommandEntity) : UpdateResult :=
  if e.render_instruction.isNone && e.command == "gen" then
    { rendered := some ("?" ++ e.command), dispatched := none }
  else
    let gateInstruction :=
      match e.render_instruction with
      | some ins => if hasLabelRef ins then some ins else none
      | none => none
    match gateInstruction with
    | some ins => { rendered := some ins, dispatched := none }
    | none =>
      match e.render_parameters with
      | some ps =>
        if paramsHaveUnresolved ps then
          { rendered := some ("?" ++ e.command), dispatched := none }
        else
          { rendered := none, dispatched := some e.command }
      | none => { rendered := none, dispatched := some e.command }

/-! ## Cache maps

The `run`/`gen` caches are Python dicts; they are embedded as association
lists with first-match lookup and insertion-order-preserving assignment
(update in place for a present key, append for a new one). -/

/-- Dict lookup `d.get(k)`. -/
def cacheGet {κ α : Type} [DecidableEq κ] (cache : List (κ × α)) (k : κ) : Option α :=
  (cache.find? (fun p => p.1 == k)).map (fun p => p.2)

/-- Dict assignment `d[k] = v`. -/
def cacheSet {κ α : Type} [DecidableEq κ] (cache : List (κ × α)) (k : κ) (v : α) :
    List (κ × α) :=
  match cache with
  | [] => [(k, v)]
  | (k', v') :: rest =>
      if k' = k then (k, v) :: rest else (k', v') :: cacheSet rest k v

/-! ## `run` directive (`handle_run` / `generate_run_key`) -/

/-- Fingerprint of a `run` invocation.  `generate_run_key` serializes the
instruction, parameters and entity id into canonical JSON (`sort_keys=True`)
and takes its md5; the hash is embedded as the serialized triple itself
(hash collisions are not modelled). -/
structure RunKey where
  instruction : String
  parameters : List (String × List String)
  entity : Nat
deriving DecidableEq, Repr

/-- Embedding of `generate_run_key`. -/
def generate_run_key (instruction : String) (parameters : List (String × List String))
    (entity : Nat) : RunKey :=
  ⟨instruction, parameters, entity⟩

/-- Outcome of the process-execution collaborator (`run(argv) → (stdout,
stderr, exitCode)` per the external-interface contract), or a raised
exception from `shlex.split` / `subprocess.Popen`. -/
inductive ProcResult where
  | ok (returncode : Int) (stdout stderr : String)
  | exc (msg : String)
deriving DecidableEq, Repr

/-- Embedding of `run_continuously`: the first value of the first
`run_continuous` parameter equals `"true"`. -/
def run_continuously (parameters : List (String × List String)) : Bool :=
  match parameters.find? (fun p => p.1 == "run_continuous") with
  | some p => p.2.head? == some "true"
  | none => false

/-- Result of `handle_run`: the rendered text, the updated run cache, and
whether a child process was executed. -/
structure RunOutput where
  rendered : String
  cache : List (RunKey × String)
  executed : Bool
deriving DecidableEq, Repr

/-- Embedding of `handle_run`.  A cached value is served without executing
when it is truthy (Python: a non-empty string) and `run_continuous` is not
set.  Otherwise the child process (abstracted by the `proc` oracle; the
`shlex` tokenization and `python-exec` substitution only shape the argv and
are not modelled) runs: exit code 0 renders stdout and stores it in the
cache under the fingerprint; a non-zero exit renders the formatted error
string and stores nothing; an exception renders its own message and stores
nothing. -/
def handle_run (instruction : String) (parameters : List (String × List String))
    (entity : Nat) (run_cache : List (RunKey × String)) (proc : ProcResult) : RunOutput :=
  let query_key := generate_run_key instruction parameters entity
  let execute : RunOutput :=
    match proc with
    | .ok rc out err =>
      if rc = 0 then
        { rendered := out, cache := cacheSet run_cache query_key out, executed := true }
      else
        { rendered := "Command failed with return code " ++ toString rc ++ ".\nError:\n" ++ err
          cache := run_cache
          executed := true }
    | .exc msg =>
        { rendered := "An error occurred while executing the command: " ++ msg
          cache := run_cache
          executed := true }
  match cacheGet run_cache query_key with
  | some cache_value =>
    if cache_value ≠ "" && !run_continuously parameters then
      { rendered := cache_value, cache := run_cache, executed := false }
    else execute
  | none => execute

/-! ## `gen` directive (`handle_gen` and `command_handlers/llm.py`) -/

/-- Cache value class for LLM responses (`LLMCacheValue`). -/
structure LLMCacheValue where
  response : String
  rate_limited : Bool
deriving DecidableEq, Repr

/-- Fingerprint of a `gen` query.  `build_query` computes
`md5(instruction + model + str(parameters))`; the hash is embedded as the
triple of its preimage components (hash collisions are not modelled). -/
structure GenKey where
  instruction : String
  modelName : String
  parameters : List (String × List String)
deriving DecidableEq, Repr

/-- Key half of `build_query` (the query text itself, which appends
`file`-parameter contents, does not influence caching and is omitted). -/
def build_query_key (instruction : String) (parameters : List (String × List String))
    (modelName : String) : GenKey :=
  ⟨instruction, modelName, parameters⟩

/-- Result of `handle_gen`: the rendered text (`none` when the early
unresolved-labels return fires and nothing is written), the updated LLM
cache, and whether the external query service was called. -/
structure GenOutput where
  rendered : Option String
  cache : List (GenKey × LLMCacheValue)
  called : Bool
deriving DecidableEq, Repr

/-- Embedding of `handle_gen`.  The external query service is abstracted by
the `svc` oracle returning the `(rate_limited, text)` pair of `call_llm`;
the model is resolved by `get_model` from parameters/config and passed here
as `modelName`.  On a cache hit whose entry is not rate-limited the cached
response is reused without a call; otherwise the service is called and the
response is stored with its rate-limited flag (the `write`/`write_append`
side-file effects are external and not modelled). -/
def handle_gen (instruction : String) (parameters : List (String × List String))
    (modelName : String) (llm_cache : List (GenKey × LLMCacheValue))
    (svc : Bool × String) : GenOutput :=
  if hasLabelRef instruction then
    { rendered := none, cache := llm_cache, called := false }
  else
    let query_key := build_query_key instruction parameters modelName
    let callSvc : GenOutput :=
      { rendered := some svc.2
        cache := cacheSet llm_cache query_key ⟨svc.2, svc.1⟩
        called := true }
    match cacheGet llm_cache query_key with
    | some cache_value =>
      if !cache_value.rate_limited then
        { rendered := some cache_value.response, cache := llm_cache, called := false }
      else callSvc
    | none => callSvc

/-! ## Renderer (`src/ecs/systems/render_system.py`) -/

/-- Minimum of the key set of the sections map (`min(m.keys(),
default=None)`). -/
def minKey? (m : List (Int × String)) : Option Int :=
  match m.map Prod.fst with
  | [] => none
  | k :: ks => some (ks.foldl min k)

/-- Fuel-bounded loop of `render_text`: pop the minimum index, append its
text (with a two-newline separator when the accumulated text is non-empty),
repeat while the map is non-empty.  The fuel is always sufficient because
each iteration removes a present key. -/
def render_text_go : Nat → String → List (Int × String) → String
  | 0, acc, _ => acc
  | fuel + 1, acc, m =>
    match minKey? m with
    | none => acc
    | some k =>
      let v := (cacheGet m k).getD ""
      let acc' := (if acc ≠ "" then acc ++ "\n\n" else acc) ++ v
      render_text_go fuel acc' (m.eraseP (fun p => p.1 == k))

/-- Embedding of `render_text`: the sections map (a dict from index to text)
is an association list with pairwise-distinct keys. -/
def render_text (sections_map : List (Int × String)) : String :=
  render_text_go (sections_map.length + 1) "" sections_map

/-- Write decision of `RenderSystem.update`: the output file is rewritten
when no document was written before or the new document differs; the state
holds `self.rendered_doc`.  Returns the new state and whether a write
happened. -/
def renderSystemWrite (rendered_doc_state : Option String) (rendered_doc : String) :
    Option String × Bool :=
  if rendered_doc_state.isNone || rendered_doc_state != some rendered_doc then
    (some rendered_doc, true)
  else
    (rendered_doc_state, false)

/-! ## Global configuration (`parse_config_sections` /
`handle_config_entities`) -/

/-- Embedding of `parse_config_sections`: every line of every config section
that starts with `!` and contains `=` contributes a `key=value` pair, later
values overwriting earlier ones for the same key. -/
def parse_config_sections (config_sections : List String) : List (String × String) :=
  config_sections.foldl
    (fun config_map sec =>
      (pySplitNl (pyStrip sec)).foldl
        (fun config_map line =>
          if pyStartsWith '!' line then
            match pySplitOnceChar '=' ⟨line.data.drop 1⟩ with
            | [key, value] => cacheSet config_map (pyStrip key) (pyStrip value)
            | _ => config_map
          else config_map)
        config_map)
    []

/-- Embedding of `handle_config_entities`: with no existing config entity
the parsed map becomes the config component; otherwise every parsed pair is
assigned into the existing map (`config_component.config_map[key] =
value`), which never removes a key. -/
def handle_config_entities (existing : Option (List (String × String)))
    (config_map : List (String × String)) : List (String × String) :=
  match existing with
  | none => config_map
  | some config_component =>
      config_map.foldl (fun acc kv => cacheSet acc kv.1 kv.2) config_component

/-! ## Reconciliation (`src/ecs/systems/generator_parsing_system.py`)

The entity store is embedded as a list of per-entity component records in
ascending creation order (the entity manager hands out ids 0, 1, 2, … from
its pool, and entity-set iteration is modelled in that order).  The
components `RawTextComponent`, `IndexComponent`,
`MarkedForDeletionComponent` and the helper `mark_raw_text_as_dirty`
(`DirtyComponent`) are imported by this system but their modules are not in
the source tree; their fields follow the spec's data model
(`RawText{content, sourceIndex, versionHash, dirty}` etc.), with a fresh
component's dirty flag clear. -/

/-- Modelled from the spec: per-entity record of the components the
reconciliation pass reads and writes — `RawText{content, sourceIndex,
versionHash, dirty}` (module `raw_text_component` is absent from the tree),
`Position{index}` (`index_component`), the `DirtyComponent` marker set by
`mark_raw_text_as_dirty` (`dirty_component`), and the `Tombstone` marker
(`mark_for_deletion_component`).  The derived components attached at
creation (section type, text content, command, instruction, labels) do not
influence reconciliation and are not tracked. -/
structure EntityRec where
  id : Nat
  raw_string : String
  version_hash : String
  index : Nat
  dirty : Bool
  dirty_marked : Bool
  marked_for_deletion : Bool
deriving DecidableEq, Repr

/-- Embedding of `construct_sections_map`: iterate the entities carrying raw
text, clear each dirty flag while recording whether any was set, and build
the match structure.  The source's dict from raw text to FIFO queues of
entities is represented by the id list in store order with
first-match-by-raw-text consumption, which has the same per-key FIFO
semantics. -/
def construct_sections_map (store : List EntityRec) :
    List EntityRec × List Nat × Bool :=
  (store.map (fun e => { e with dirty := false }),
   store.map (fun e => e.id),
   store.any (fun e => e.dirty))

/-- Consume the first queued entity whose raw text equals `raw`, returning
its id and the rest of the queue (per-key FIFO pop of the sections map). -/
def popFirstMatch (store : List EntityRec) (remaining : List Nat) (raw : String) :
    Option (Nat × List Nat) :=
  match remaining with
  | [] => none
  | j :: rest =>
    match store.find? (fun e => e.id == j) with
    | some e =>
      if e.raw_string = raw then some (j, rest)
      else (popFirstMatch store rest raw).map (fun p => (p.1, j :: p.2))
    | none => (popFirstMatch store rest raw).map (fun p => (p.1, j :: p.2))

/-- Mutable state threaded through `process_sections`: the store, the
not-yet-consumed queue of the sections map, the next entity id of the pool,
and counters for created entities and dirtied (index-moved) entities. -/
structure ReconcileState where
  store : List EntityRec
  remaining : List Nat
  next_id : Nat
  created : Nat
  dirtied : Nat
deriving DecidableEq, Repr

/-- Embedding of the loop body of `process_sections` over the enumerated
parsed sections: an unmatched raw text creates a fresh entity carrying the
raw text, index and derived components; a matched entity is consumed from
its queue, and when its stored index differs from the new position the
index is updated, the raw-text dirty flag is set, and
`mark_raw_text_as_dirty` attaches the dirty marker. -/
def process_sections_go (version_hash : String) (st : ReconcileState) :
    List Section → Nat → ReconcileState
  | [], _ => st
  | sec :: rest, index =>
    match popFirstMatch st.store st.remaining sec.raw_text with
    | none =>
      let e : EntityRec :=
        { id := st.next_id, raw_string := sec.raw_text, version_hash := version_hash
          index := index, dirty := false, dirty_marked := false
          marked_for_deletion := false }
      process_sections_go version_hash
        { st with store := st.store ++ [e], next_id := st.next_id + 1
                  created := st.created + 1 }
        rest (index + 1)
    | some (j, remaining') =>
      let moved :=
        match st.store.find? (fun e => e.id == j) with
        | some e => e.index != index
        | none => false
      if moved then
        process_sections_go version_hash
          { st with
              store := st.store.map (fun e =>
                if e.id = j then
                  { e with index := index, dirty := true, dirty_marked := true }
                else e)
              remaining := remaining'
              dirtied := st.dirtied + 1 }
          rest (index + 1)
      else
        process_sections_go version_hash { st with remaining := remaining' }
          rest (index + 1)

/-- Embedding of `process_sections`: fold the enumerated sections from
position 0. -/
def process_sections (sections_data : List Section) (st : ReconcileState)
    (version_hash : String) : ReconcileState :=
  process_sections_go version_hash st sections_data 0

/-- Embedding of `mark_remaining_sections_for_deletion`: every entity left
in the match structure receives the deletion marker; an entity already
carrying it is only warned about. -/
def mark_remaining_sections_for_deletion (store : List EntityRec)
    (remaining : List Nat) : List EntityRec × Nat × Nat :=
  remaining.foldl
    (fun acc j =>
      let (store, marked, warnings) := acc
      match store.find? (fun e => e.id == j) with
      | some e =>
        if e.marked_for_deletion then (store, marked, warnings + 1)
        else
          (store.map (fun e' =>
            if e'.id = j then { e' with marked_for_deletion := true } else e'),
           marked + 1, warnings)
      | none => (store, marked, warnings))
    (store, 0, 0)

/-- Counters of one reconciliation pass: entities created, entities whose
index moved (raw-text dirty flag set), entities newly marked for deletion,
and duplicate-tombstone warnings. -/
structure ReconcileReport where
  created : Nat
  dirtied : Nat
  marked : Nat
  dup_warnings : Nat
deriving DecidableEq, Repr

/-- One reconciliation pass over already-parsed sections (the
section-matching portion of `handle_file_modified_v2`): build the sections
map from the current store, process the parsed sections against it, and
mark every unconsumed entity for deletion. -/
def reconcile_pass (sections_data : List Section) (store : List EntityRec)
    (next_id : Nat) (version_hash : String) :
    (List EntityRec × Nat) × ReconcileReport :=
  let (store1, queue, _) := construct_sections_map store
  let st := process_sections sections_data
    { store := store1, remaining := queue, next_id := next_id
      created := 0, dirtied := 0 } version_hash
  let (store2, marked, warnings) :=
    mark_remaining_sections_for_deletion st.store st.remaining
  ((store2, st.next_id), ⟨st.created, st.dirtied, marked, warnings⟩)

example : split_into_sections "/greet\nHello\n\\greet\n\n?run echo hi\n." =
    ["/greet\nHello\n\\greet", "?run echo hi\n."] := by decide

example : parse_section "?run echo hi\n." =
    .ok { raw_text := "?run echo hi\n."
          opening_labels := []
          closing_labels := []
          section_type := some "command"
          command := some "run"
          instruction := some "echo hi\n."
          parameters := []
          text_content := none } := by decide

/-! ## Specification-side definitions used by the theorems -/

/-- Whether a string neither begins nor ends with a (Python) whitespace
character. -/
def noEdgeWsB (s : String) : Bool :=
  (match s.data.head? with
   | some c => !pyIsSpace c
   | none => true) &&
  (match s.data.getLast? with
   | some c => !pyIsSpace c
   | none => true)

/-- One step of the renderer's accumulation: append a section text,
preceded by a blank-line separator when text has been accumulated already
(the loop body of `render_text`). -/
def sepAppend (acc v : String) : String :=
  (if acc ≠ "" then acc ++ "\n\n" else acc) ++ v

/-- Join a list of strings with one blank line (two newlines) between
consecutive elements. -/
def joinSep : List String → String
  | [] => ""
  | [v] => v
  | v :: w :: vs => v ++ "\n\n" ++ joinSep (w :: vs)

/-- Entity created by `process_sections` for the parsed block at position
`n` of a pass that started from an empty store (entity id and block index
coincide there). -/
def mkEnt (h : String) (n : Nat) (s : Section) : EntityRec :=
  { id := n, raw_string := s.raw_text, version_hash := h, index := n
    dirty := false, dirty_marked := false, marked_for_deletion := false }

/-- Store produced by a reconciliation pass from the empty store: one fresh
entity per parsed block, ids and indices counting up from `n`. -/
def mkFrom (h : String) : Nat → List Section → List EntityRec
  | _, [] => []
  | n, s :: ss => mkEnt h n s :: mkFrom h (n + 1) ss

/-! ## Helper lemmas on cache maps -/

/-- Lookup after dict assignment at the assigned key: the new value. -/
theorem cacheGet_cacheSet_self {κ α : Type} [DecidableEq κ] (c : List (κ × α)) (k : κ) (v : α) :
    cacheGet (cacheSet c k v) k = some v := by
  induction c with
  | nil => simp [cacheGet, cacheSet, List.find?]
  | cons p rest ih =>
    obtain ⟨a, b⟩ := p
    by_cases ha : a = k
    · subst ha
      simp [cacheGet, cacheSet, List.find?]
    · have ha' : (a == k) = false := beq_false_of_ne ha
      simp only [cacheSet, if_neg ha, cacheGet, List.find?, ha']
      simpa [cacheGet] using ih

/-- Lookup after dict assignment at a different key: unchanged. -/
theorem cacheGet_cacheSet_ne {κ α : Type} [DecidableEq κ] (c : List (κ × α)) (k k' : κ) (v : α)
    (h : k ≠ k') : cacheGet (cacheSet c k' v) k = cacheGet c k := by
  induction c with
  | nil =>
    have h' : (k' == k) = false := beq_false_of_ne (Ne.symm h)
    simp [cacheGet, cacheSet, List.find?, h']
  | cons p rest ih =>
    obtain ⟨a, b⟩ := p
    by_cases ha : a = k'
    · subst ha
      have h' : (a == k) = false := beq_false_of_ne (Ne.symm h)
      simp [cacheGet, cacheSet, List.find?, h']
    · by_cases hk : a = k
      · subst hk
        simp [cacheGet, cacheSet, List.find?, if_neg ha]
      · have hk' : (a == k) = false := beq_false_of_ne hk
        simp only [cacheSet, if_neg ha, cacheGet, List.find?, hk']
        simpa [cacheGet] using ih

/-! ## C8: the renderer writes only on change -/

/-- C8: `RenderSystem.update` writes the output destination exactly when the
newly assembled document differs from the previously written one (or none
was written yet); when the rendered text equals the last write, no write
happens. -/
theorem c8_render_write_only_on_change (prev : Option String) (doc : String) :
    (renderSystemWrite prev doc).2 = true ↔ prev ≠ some doc := by
  rcases prev with _ | d
  · simp [renderSystemWrite]
  · by_cases h : d = doc <;> simp [renderSystemWrite, h]

/-! ## C4: the end-to-end parse of the two-block document -/

/-- C4 (amended): the source splits into exactly the prose block
(opening label `greet`, content `Hello`, closing label `greet`) and the
directive block (command `run`); the directive's instruction is
`"echo hi\n."` — the terminator line `.` is appended to the instruction by
`handle_command_state`, it is not stripped. -/
theorem c4_parse_two_blocks :
    split_into_sections "/greet\nHello\n\\greet\n\n?run echo hi\n." =
        ["/greet\nHello\n\\greet", "?run echo hi\n."] ∧
    parse_section "/greet\nHello\n\\greet" = .ok
      { raw_text := "/greet\nHello\n\\greet"
        opening_labels := ["greet"]
        closing_labels := ["greet"]
        section_type := some "text"
        command := none
        instruction := none
        parameters := []
        text_content := some "Hello" } ∧
    parse_section "?run echo hi\n." = .ok
      { raw_text := "?run echo hi\n."
        opening_labels := []
        closing_labels := []
        section_type := some "command"
        command := some "run"
        instruction := some "echo hi\n."
        parameters := []
        text_content := none } :=
  ⟨by decide, by decide, by decide⟩

/-- C4 counterexample to the claim as stated: the parsed directive block's
instruction is `"echo hi\n."`, not `"echo hi"`. -/
theorem c4_instruction_counterexample :
    (parse_section "?run echo hi\n.").map Section.instruction =
        .ok (some "echo hi\n.") ∧
    ("echo hi\n." : String) ≠ "echo hi" :=
  ⟨by decide, by decide⟩

/-! ## C7: malformed parameter line -/

/-- C7: evaluation of the parser at a malformed parameter line.  In the
`parameters` state a line without `\` or `=` raises `ValueError`
("Unexpected line in parameters state: …"), which no caller catches, so the
whole parse aborts instead of retaining the block as an error/prose
fallback. -/
theorem c7_parameters_state_raises :
    parse_section "?cmd\nkey=value\nbad line" =
      .error "Unexpected line in parameters state: bad line" := by decide

/-! ## C1: label gating in the directive executor -/

/-- C1 (amended): a directive entity whose resolved instruction still
contains a `:name:` marker never reaches the dispatch `match`, and its
rendered output is the resolved instruction itself (markers intact); when
the instruction is marker-free but some resolved parameter value still
contains a marker, dispatch is also skipped and the rendered output is `?`
followed by the command name. -/
theorem c1_label_gating (e : CommandEntity) :
    (∀ ins, e.render_instruction = some ins → hasLabelRef ins = true →
      commandSystemStep e = { rendered := some ins, dispatched := none }) ∧
    (∀ ins ps, e.render_instruction = some ins → hasLabelRef ins = false →
      e.render_parameters = some ps → paramsHaveUnresolved ps = true →
      commandSystemStep e =
        { rendered := some ("?" ++ e.command), dispatched := none }) := by
  constructor
  · intro ins hins hlab
    simp [commandSystemStep, hins, hlab]
  · intro ins ps hins hlab hps hunres
    simp [commandSystemStep, hins, hlab, hps, hunres]

/-- C1 witness: both gating branches at concrete entities. -/
theorem c1_label_gating_witness :
    commandSystemStep
        { command := "run", render_instruction := some "echo :undefined:"
          render_parameters := some [] } =
      { rendered := some "echo :undefined:", dispatched := none } ∧
    commandSystemStep
        { command := "insert", render_instruction := some "x"
          render_parameters := some [("filename", [":undefined:"])] } =
      { rendered := some "?insert", dispatched := none } :=
  ⟨(c1_label_gating _).1 "echo :undefined:" rfl (by decide),
   (c1_label_gating _).2 "x" [("filename", [":undefined:"])] rfl (by decide) rfl
     (by decide)⟩

/-- C1 counterexample to the claim as stated: for an unresolved reference in
the instruction the rendered output is the instruction text, not `?` +
command name. -/
theorem c1_placeholder_counterexample :
    commandSystemStep
        { command := "run", render_instruction := some "echo :undefined:"
          render_parameters := none } =
      { rendered := some "echo :undefined:", dispatched := none } ∧
    some ("echo :undefined:" : String) ≠ some ("?" ++ "run") :=
  ⟨by decide, by decide⟩

/-! ## C3: rate-limited cache entries are not stable hits -/

/-- C3: with unchanged instruction, parameters and model (hence the same
query fingerprint), a cached entry whose rate-limited flag is set is *not*
served: the external query service is called again and the entry is
overwritten with the fresh result; only an entry with the flag unset is
reused without calling the service (cache unchanged). -/
theorem c3_rate_limited_not_stable_hit (instruction modelName : String)
    (parameters : List (String × List String))
    (llm_cache : List (GenKey × LLMCacheValue)) (svc : Bool × String)
    (v : LLMCacheValue)
    (hlab : hasLabelRef instruction = false)
    (hget : cacheGet llm_cache (build_query_key instruction parameters modelName) = some v) :
    (v.rate_limited = true →
      handle_gen instruction parameters modelName llm_cache svc =
        { rendered := some svc.2
          cache := cacheSet llm_cache
            (build_query_key instruction parameters modelName) ⟨svc.2, svc.1⟩
          called := true }) ∧
    (v.rate_limited = false →
      handle_gen instruction parameters modelName llm_cache svc =
        { rendered := some v.response, cache := llm_cache, called := false }) := by
  constructor <;> intro hrl <;> simp [handle_gen, hlab, hget, hrl]

/-- C3 witness: a rate-limited entry for the concrete key is replaced by a
fresh service call. -/
theorem c3_rate_limited_witness :
    (handle_gen "q" [] "m"
        [(build_query_key "q" [] "m", ⟨"old", true⟩)] (false, "new")).called
      = true := by
  rw [(c3_rate_limited_not_stable_hit "q" "m" []
        [(build_query_key "q" [] "m", ⟨"old", true⟩)] (false, "new")
        ⟨"old", true⟩ (by decide) (by decide)).1 rfl]

/-! ## C5: run directive exit-code semantics -/

/-- C5: when the run cache has no entry for the fingerprint of
(instruction, parameters, entity) the child process executes; exit code 0
renders its stdout and stores it in the run cache under that fingerprint,
while a non-zero exit code renders the formatted error string and leaves
the cache without an entry for that fingerprint. -/
theorem c5_run_exit_code_semantics (instruction : String)
    (parameters : List (String × List String)) (entity : Nat)
    (run_cache : List (RunKey × String)) (rc : Int) (out err : String)
    (hmiss : cacheGet run_cache (generate_run_key instruction parameters entity) = none) :
    (rc = 0 →
      handle_run instruction parameters entity run_cache (.ok rc out err) =
        { rendered := out
          cache := cacheSet run_cache (generate_run_key instruction parameters entity) out
          executed := true } ∧
      cacheGet (handle_run instruction parameters entity run_cache (.ok rc out err)).cache
          (generate_run_key instruction parameters entity) = some out) ∧
    (rc ≠ 0 →
      handle_run instruction parameters entity run_cache (.ok rc out err) =
        { rendered := "Command failed with return code " ++ toString rc ++
            ".\nError:\n" ++ err
          cache := run_cache
          executed := true } ∧
      cacheGet (handle_run instruction parameters entity run_cache (.ok rc out err)).cache
          (generate_run_key instruction parameters entity) = none) := by
  constructor <;> intro hrc
  · have h1 : handle_run instruction parameters entity run_cache (.ok rc out err) =
        { rendered := out
          cache := cacheSet run_cache (generate_run_key instruction parameters entity) out
          executed := true } := by
      simp [handle_run, hmiss, hrc]
    exact ⟨h1, by rw [h1]; exact cacheGet_cacheSet_self _ _ _⟩
  · have h1 : handle_run instruction parameters entity run_cache (.ok rc out err) =
        { rendered := "Command failed with return code " ++ toString rc ++
            ".\nError:\n" ++ err
          cache := run_cache
          executed := true } := by
      simp [handle_run, hmiss, hrc]
    exact ⟨h1, by rw [h1]; exact hmiss⟩

/-- C5 witness: a successful concrete run caches its stdout under the
fingerprint; a failing concrete run renders the error format. -/
theorem c5_run_witness :
    handle_run "echo hi" [] 0 [] (.ok 0 "hi\n" "") =
      { rendered := "hi\n"
        cache := cacheSet [] (generate_run_key "echo hi" [] 0) "hi\n"
        executed := true } ∧
    handle_run "false" [] 1 [] (.ok 1 "" "boom") =
      { rendered := "Command failed with return code " ++ toString (1 : Int) ++
          ".\nError:\n" ++ "boom"
        cache := []
        executed := true } :=
  ⟨((c5_run_exit_code_semantics "echo hi" [] 0 [] 0 "hi\n" "" rfl).1 rfl).1,
   ((c5_run_exit_code_semantics "false" [] 1 [] 1 "" "boom" rfl).2 (by decide)).1⟩

/-! ## C9: the global config map never shrinks -/

/-- C9: merging a newly parsed config map into the existing config entity
assigns key by key, so every key present before the merge is still present
after it (with the new value when the key reappears); a key with no line in
the new source keeps its old value. -/
theorem c9_config_never_shrinks (m new : List (String × String)) (k : String)
    (h : (cacheGet m k).isSome = true) :
    (cacheGet (handle_config_entities (some m) new) k).isSome = true ∧
    ((∀ p ∈ new, p.1 ≠ k) →
      cacheGet (handle_config_entities (some m) new) k = cacheGet m k) := by
  simp only [handle_config_entities]
  induction new generalizing m with
  | nil => exact ⟨h, fun _ => rfl⟩
  | cons p rest ih =>
    obtain ⟨k1, v1⟩ := p
    simp only [List.foldl_cons]
    by_cases hk : k = k1
    · subst hk
      refine ⟨(ih (cacheSet m k v1) (by rw [cacheGet_cacheSet_self]; rfl)).1, ?_⟩
      intro hnone
      exact absurd rfl (hnone (k, v1) (List.mem_cons_self _ _))
    · have hrw : cacheGet (cacheSet m k1 v1) k = cacheGet m k :=
        cacheGet_cacheSet_ne _ _ _ _ hk
      refine ⟨(ih (cacheSet m k1 v1) (by rw [hrw]; exact h)).1, ?_⟩
      intro hnone
      have := (ih (cacheSet m k1 v1) (by rw [hrw]; exact h)).2
        (fun p hp => hnone p (List.mem_cons_of_mem _ hp))
      rw [this, hrw]

/-- C9 witness: a key absent from the new parse survives the merge with its
old value intact. -/
theorem c9_config_witness :
    (cacheGet (handle_config_entities (some [("a", "1")]) [("b", "2")]) "a").isSome
        = true ∧
    cacheGet (handle_config_entities (some [("a", "1")]) [("b", "2")]) "a" =
      cacheGet [("a", "1")] "a" :=
  ⟨(c9_config_never_shrinks [("a", "1")] [("b", "2")] "a" (by decide)).1,
   (c9_config_never_shrinks [("a", "1")] [("b", "2")] "a" (by decide)).2
     (by decide)⟩

/-! ## C10: line stripping in the parser -/

/-- Head of a `dropWhile` never satisfies the dropped predicate. -/
theorem head?_dropWhile_false {α : Type} (p : α → Bool) (l : List α) :
    ∀ c, (l.dropWhile p).head? = some c → p c = false := by
  induction l with
  | nil => intro c h; simp [List.dropWhile] at h
  | cons a t ih =>
    intro c h
    by_cases hp : p a
    · rw [List.dropWhile_cons_of_pos hp] at h
      exact ih c h
    · rw [List.dropWhile_cons_of_neg hp] at h
      simp at h
      subst h
      exact Bool.of_not_eq_true hp

/-- A nonempty suffix has the same last element as the whole list. -/
theorem suffix_getLast? {α : Type} {l₁ l₂ : List α} (h : l₁ <:+ l₂) (hne : l₁ ≠ []) :
    l₁.getLast? = l₂.getLast? := by
  obtain ⟨t, rfl⟩ := h
  rw [List.getLast?_append]
  cases hl : l₁.getLast? with
  | none => exact absurd (List.getLast?_eq_none_iff.mp hl) hne
  | some a => simp

/-- A nonempty prefix has the same head as the whole list. -/
theorem prefix_head? {α : Type} {l₁ l₂ : List α} (h : l₁ <+: l₂) (hne : l₁ ≠ []) :
    l₁.head? = l₂.head? := by
  obtain ⟨t, rfl⟩ := h
  cases l₁ with
  | nil => exact absurd rfl hne
  | cons a t' => simp

/-- Removing trailing whitespace yields a prefix of the original list. -/
theorem dropTrail_prefix (l : List Char) : dropTrail l <+: l := by
  have h := List.dropWhile_suffix (l := l.reverse) pyIsSpace
  rw [← @List.reverse_suffix _ (dropTrail l) l]
  simpa [dropTrail] using h

/-- The stripped form of a string neither begins nor ends with whitespace. -/
theorem noEdgeWs_strip (s : String) : noEdgeWsB (pyStrip s) = true := by
  have hdata : (pyStrip s).data = stripChars s.data := rfl
  rw [noEdgeWsB, hdata, Bool.and_eq_true]
  constructor
  · cases hh : (stripChars s.data).head? with
    | none => rfl
    | some c =>
      have hpre : stripChars s.data <+: s.data.dropWhile pyIsSpace :=
        dropTrail_prefix _
      have hne : stripChars s.data ≠ [] := by
        intro he
        rw [he] at hh
        simp at hh
      have := prefix_head? hpre hne
      rw [hh] at this
      have hc := head?_dropWhile_false pyIsSpace s.data c this.symm
      simp [hc]
  · cases hh : (stripChars s.data).getLast? with
    | none => rfl
    | some c =>
      have hrev : (stripChars s.data).reverse =
          (s.data.dropWhile pyIsSpace).reverse.dropWhile pyIsSpace := by
        simp [stripChars, dropTrail]
      have : ((s.data.dropWhile pyIsSpace).reverse.dropWhile pyIsSpace).head? = some c := by
        rw [← hrev, List.head?_reverse, hh]
      have hc := head?_dropWhile_false pyIsSpace (s.data.dropWhile pyIsSpace).reverse c this
      simp [hc]

/-- The remainder component of a whitespace `split(maxsplit=1)` of a string
with no edge whitespace has no edge whitespace either. -/
theorem noEdgeWs_splitWs_rest (s : String) (hs : noEdgeWsB s = true)
    (p0 p1 : String) (r : List String) (h : pySplitOnceWs s = p0 :: p1 :: r) :
    noEdgeWsB p1 = true := by
  simp only [pySplitOnceWs] at h
  split_ifs at h with h1 h2
  · simp at h
  injection h with ha h'
  injection h' with hb h''
  subst hb
  have hne : ((s.data.dropWhile pyIsSpace).dropWhile
      (fun c => !pyIsSpace c)).dropWhile pyIsSpace ≠ [] := by
    intro he
    exact h2 (by simp [he])
  rw [noEdgeWsB, Bool.and_eq_true]
  constructor
  · cases hh : (String.mk (((s.data.dropWhile pyIsSpace).dropWhile
        (fun c => !pyIsSpace c)).dropWhile pyIsSpace)).data.head? with
    | none => rfl
    | some c =>
      have hc := head?_dropWhile_false pyIsSpace _ c (by simpa using hh)
      simp [hc]
  · have hsuf : ((s.data.dropWhile pyIsSpace).dropWhile
        (fun c => !pyIsSpace c)).dropWhile pyIsSpace <:+ s.data :=
      ((List.dropWhile_suffix _).trans (List.dropWhile_suffix _)).trans
        (List.dropWhile_suffix _)
    have hlast := suffix_getLast? hsuf hne
    cases hh : (String.mk (((s.data.dropWhile pyIsSpace).dropWhile
        (fun c => !pyIsSpace c)).dropWhile pyIsSpace)).data.getLast? with
    | none => rfl
    | some c =>
      have hsl : s.data.getLast? = some c := by
        rw [← hlast]
        simpa using hh
      have hcomp := (Bool.and_eq_true _ _).mp (by rw [noEdgeWsB] at hs; exact hs)
      have h2' := hcomp.2
      rw [hsl] at h2'
      simpa using h2'

/-- C10 invariant: running the line machine only ever accumulates
instruction lines and text-content lines without edge whitespace, because
every line is stripped before the state handlers see it and the
split-remainder of a stripped line is itself stripped. -/
theorem parse_lines_go_stripped (lines : List String) :
    ∀ (state : PState) (ol cl : List String) (ty cmd : Option String)
      (ins : List String) (ps : List (String × List String)) (tc : List String)
      (r : ParseLinesResult),
      (∀ s ∈ ins, noEdgeWsB s = true) →
      (∀ s ∈ tc, noEdgeWsB s = true) →
      parse_lines_go state ol cl ty cmd ins ps tc lines = .ok r →
      (∀ s ∈ r.instruction, noEdgeWsB s = true) ∧
      (∀ s ∈ r.text_content, noEdgeWsB s = true) := by
  induction lines with
  | nil =>
    intro state ol cl ty cmd ins ps tc r hins htc hok
    simp only [parse_lines_go] at hok
    injection hok with hok
    subst hok
    exact ⟨hins, htc⟩
  | cons line rest ih =>
    intro state ol cl ty cmd ins ps tc r hins htc hok
    cases state with
    | start =>
      by_cases h1 : pyStartsWith '/' (pyStrip line)
      · simp only [parse_lines_go, handle_start_state, if_pos h1] at hok
        exact ih _ _ _ _ _ _ _ _ _ hins htc hok
      · by_cases h2 : pyStartsWith '?' (pyStrip line)
        · rcases hsp : pySplitOnceWs (pyStrip line) with _ | ⟨p0, _ | ⟨p1, rest3⟩⟩
          · simp only [parse_lines_go, handle_start_state, if_neg h1, if_pos h2,
              hsp] at hok
            exact ih _ _ _ _ _ _ _ _ _ hins htc hok
          · simp only [parse_lines_go, handle_start_state, if_neg h1, if_pos h2,
              hsp] at hok
            exact ih _ _ _ _ _ _ _ _ _ hins htc hok
          · simp only [parse_lines_go, handle_start_state, if_neg h1, if_pos h2,
              hsp] at hok
            refine ih _ _ _ _ _ _ _ _ _ ?_ htc hok
            intro s hm
            rcases List.mem_append.mp hm with hm | hm
            · exact hins s hm
            · rw [List.mem_singleton.mp hm]
              exact noEdgeWs_splitWs_rest (pyStrip line) (noEdgeWs_strip line)
                p0 p1 rest3 hsp
        · simp only [parse_lines_go, handle_start_state, if_neg h1, if_neg h2] at hok
          refine ih _ _ _ _ _ _ _ _ _ hins ?_ hok
          intro s hm
          rcases List.mem_append.mp hm with hm | hm
          · exact htc s hm
          · rw [List.mem_singleton.mp hm]
            exact noEdgeWs_strip line
    | command =>
      by_cases hc : (pyStrip line).data.contains '='
      · rcases hspc : pySplitOnceChar '=' (pyStrip line) with _ | ⟨k, _ | ⟨v, _ | ⟨x, r3⟩⟩⟩
        · simp only [parse_lines_go, handle_command_state, if_pos hc, hspc] at hok
          exact ih _ _ _ _ _ _ _ _ _ hins htc hok
        · simp only [parse_lines_go, handle_command_state, if_pos hc, hspc] at hok
          exact ih _ _ _ _ _ _ _ _ _ hins htc hok
        · simp only [parse_lines_go, handle_command_state, if_pos hc, hspc] at hok
          exact ih _ _ _ _ _ _ _ _ _ hins htc hok
        · simp only [parse_lines_go, handle_command_state, if_pos hc, hspc] at hok
          exact ih _ _ _ _ _ _ _ _ _ hins htc hok
      · simp only [parse_lines_go, handle_command_state, if_neg hc] at hok
        refine ih _ _ _ _ _ _ _ _ _ ?_ htc hok
        intro s hm
        rcases List.mem_append.mp hm with hm | hm
        · exact hins s hm
        · rw [List.mem_singleton.mp hm]
          exact noEdgeWs_strip line
    | parameters =>
      by_cases hb : pyStartsWith '\\' (pyStrip line)
      · simp only [parse_lines_go, handle_parameters_state, if_pos hb] at hok
        exact ih _ _ _ _ _ _ _ _ _ hins htc hok
      · by_cases hc : (pyStrip line).data.contains '='
        · rcases hspc : pySplitOnceChar '=' (pyStrip line) with _ | ⟨k, _ | ⟨v, _ | ⟨x, r3⟩⟩⟩
          · simp only [parse_lines_go, handle_parameters_state, if_neg hb, if_pos hc,
              hspc] at hok
            exact ih _ _ _ _ _ _ _ _ _ hins htc hok
          · simp only [parse_lines_go, handle_parameters_state, if_neg hb, if_pos hc,
              hspc] at hok
            exact ih _ _ _ _ _ _ _ _ _ hins htc hok
          · simp only [parse_lines_go, handle_parameters_state, if_neg hb, if_pos hc,
              hspc] at hok
            exact ih _ _ _ _ _ _ _ _ _ hins htc hok
          · simp only [parse_lines_go, handle_parameters_state, if_neg hb, if_pos hc,
              hspc] at hok
            exact ih _ _ _ _ _ _ _ _ _ hins htc hok
        · simp only [parse_lines_go, handle_parameters_state, if_neg hb, if_neg hc] at hok
          exact Except.noConfusion hok
    | text =>
      by_cases hb : pyStartsWith '\\' (pyStrip line)
      · simp only [parse_lines_go, handle_text_state, if_pos hb] at hok
        exact ih _ _ _ _ _ _ _ _ _ hins htc hok
      · simp only [parse_lines_go, handle_text_state, if_neg hb] at hok
        refine ih _ _ _ _ _ _ _ _ _ hins ?_ hok
        intro s hm
        rcases List.mem_append.mp hm with hm | hm
        · exact htc s hm
        · rw [List.mem_singleton.mp hm]
          exact noEdgeWs_strip line

/-- C10 (amended): every line is stripped before classification, so the
accumulated text-content lines and instruction lines never begin or end
with whitespace; parameter keys and values, however, are the raw halves of
the stripped line around the first `=` and may keep interior whitespace at
their edges. -/
theorem c10_no_edge_whitespace (lines : List String) (r : ParseLinesResult)
    (h : parse_lines lines = .ok r) :
    (∀ s ∈ r.instruction, noEdgeWsB s = true) ∧
    (∀ s ∈ r.text_content, noEdgeWsB s = true) :=
  parse_lines_go_stripped lines .start [] [] none none [] [] [] r
    (by intro s hs; simp at hs) (by intro s hs; simp at hs) h

/-- C10 witness: a concrete indented line is stored stripped. -/
theorem c10_no_edge_whitespace_witness : noEdgeWsB "hello world" = true :=
  (c10_no_edge_whitespace ["  hello world  "]
      { opening_labels := [], closing_labels := [], section_type := some "text"
        command := none, instruction := [], parameters := []
        text_content := ["hello world"] }
      (by decide)).2 "hello world" (by simp)

/-- C10 counterexample to the claim as stated: a parameter line with spaces
around `=` keeps them — the key ends with whitespace and the value begins
with whitespace. -/
theorem c10_param_whitespace_counterexample :
    (parse_section "?cmd\nkey = value").map Section.parameters =
      .ok [("key ", [" value"])] ∧
    noEdgeWsB "key " = false ∧ noEdgeWsB " value" = false :=
  ⟨by decide, by decide, by decide⟩

/-! ## C6: render_text assembles in ascending index order -/

/-- A string with a non-empty left part stays non-empty under append. -/
theorem append_ne_empty_left (a b : String) (h : a ≠ "") : a ++ b ≠ "" := by
  intro he
  apply h
  have hd : (a ++ b).data = ([] : List Char) := by rw [he]
  rw [String.data_append] at hd
  rcases List.append_eq_nil.mp hd with ⟨ha, -⟩
  cases a
  simp at ha
  simp [ha]

/-- Splitting the first element of a blank-line join along an append. -/
theorem joinSep_cons_append (x y : String) (ws : List String) :
    joinSep ((x ++ y) :: ws) = x ++ joinSep (y :: ws) := by
  cases ws with
  | nil => rfl
  | cons z zs => simp only [joinSep, String.append_assoc]

/-- Folding the accumulation step from a non-empty accumulator is a
blank-line join headed by the accumulator. -/
theorem foldl_sepAppend_ne (vs : List String) :
    ∀ acc, acc ≠ "" → vs.foldl sepAppend acc = joinSep (acc :: vs) := by
  induction vs with
  | nil => intro acc _; rfl
  | cons w ws ih =>
    intro acc hacc
    have hstep : sepAppend acc w = acc ++ "\n\n" ++ w := by
      simp [sepAppend, hacc]
    have hne : sepAppend acc w ≠ "" := by
      rw [hstep]
      exact append_ne_empty_left _ _ (append_ne_empty_left _ _ hacc)
    calc (w :: ws).foldl sepAppend acc = ws.foldl sepAppend (sepAppend acc w) := rfl
      _ = joinSep (sepAppend acc w :: ws) := ih _ hne
      _ = joinSep (((acc ++ "\n\n") ++ w) :: ws) := by rw [hstep]
      _ = (acc ++ "\n\n") ++ joinSep (w :: ws) := joinSep_cons_append _ _ _
      _ = acc ++ "\n\n" ++ joinSep (w :: ws) := rfl

/-- Folding the accumulation step from the empty accumulator is a blank-line
join after discarding the leading run of empty section texts. -/
theorem foldl_sepAppend_empty (vs : List String) :
    vs.foldl sepAppend "" = joinSep (vs.dropWhile (fun v => v == "")) := by
  induction vs with
  | nil => rfl
  | cons w ws ih =>
    by_cases hw : w = ""
    · subst hw
      have hstep : sepAppend "" "" = "" := by simp [sepAppend]
      calc ("" :: ws).foldl sepAppend "" = ws.foldl sepAppend (sepAppend "" "") := rfl
        _ = ws.foldl sepAppend "" := by rw [hstep]
        _ = joinSep (ws.dropWhile (fun v => v == "")) := ih
        _ = joinSep (("" :: ws).dropWhile (fun v => v == "")) := by
            rw [List.dropWhile_cons_of_pos (by simp)]
    · have hstep : sepAppend "" w = w := by simp [sepAppend]
      calc (w :: ws).foldl sepAppend "" = ws.foldl sepAppend (sepAppend "" w) := rfl
        _ = ws.foldl sepAppend w := by rw [hstep]
        _ = joinSep (w :: ws) := foldl_sepAppend_ne ws w hw
        _ = joinSep ((w :: ws).dropWhile (fun v => v == "")) := by
            rw [List.dropWhile_cons_of_neg (by simp [hw])]

/-- A key-sorted list with pairwise-distinct keys is strictly key-sorted. -/
theorem sorted_le_nodup_lt (l : List (Int × String))
    (h : l.Sorted (fun a b => a.1 ≤ b.1)) (hnd : (l.map Prod.fst).Nodup) :
    l.Sorted (fun a b => a.1 < b.1) := by
  have hne : l.Pairwise (fun a b => a.1 ≠ b.1) := List.pairwise_map.mp hnd
  exact (h.and hne).imp (fun hab => lt_of_le_of_ne hab.1 hab.2)

/-- The renderer's minimum-index computation is the list minimum of the key
projection. -/
theorem minKey?_eq_min? (m : List (Int × String)) :
    minKey? m = (m.map Prod.fst).min? := by
  cases h : m.map Prod.fst <;> simp [minKey?, List.min?, h]

/-- Fuel-indexed extraction lemma: with sufficient fuel and
pairwise-distinct keys, the pop-minimum loop of `render_text` visits the
entries in ascending key order, i.e. it folds the accumulation step over
the key-sorted value sequence. -/
theorem render_text_go_sorted :
    ∀ (n : Nat) (m : List (Int × String)) (acc : String),
      m.length ≤ n → (m.map Prod.fst).Nodup →
      render_text_go n acc m =
        ((m.insertionSort (fun a b => a.1 ≤ b.1)).map Prod.snd).foldl sepAppend acc := by
  intro n
  induction n with
  | zero =>
    intro m acc hlen _
    have hm : m = [] := List.eq_nil_of_length_eq_zero (Nat.le_zero.mp hlen)
    subst hm
    rfl
  | succ n ih =>
    intro m acc hlen hnd
    by_cases hme : m = []
    · subst hme
      rfl
    haveI inst1 : IsTotal (Int × String) (fun a b => a.1 ≤ b.1) :=
      ⟨fun a b => le_total a.1 b.1⟩
    haveI inst2 : IsTrans (Int × String) (fun a b => a.1 ≤ b.1) :=
      ⟨fun a b c h1 h2 => le_trans h1 h2⟩
    haveI inst3 : IsAntisymm (Int × String) (fun a b => a.1 < b.1) :=
      ⟨fun a b h1 h2 => (lt_asymm h1 h2).elim⟩
    set s := m.insertionSort (fun a b => a.1 ≤ b.1) with hs
    have hperm : s.Perm m := List.perm_insertionSort _ m
    have hsort : s.Sorted (fun a b => a.1 ≤ b.1) := List.sorted_insertionSort _ m
    have hsne : s ≠ [] := by
      intro h0
      rw [h0] at hperm
      exact hme (hperm.symm.eq_nil)
    obtain ⟨a, tail, hsa⟩ : ∃ a tail, s = a :: tail := by
      cases hcs : s with
      | nil => exact absurd hcs hsne
      | cons x xs => exact ⟨x, xs, rfl⟩
    have hamem : a ∈ m := hperm.subset (hsa ▸ List.mem_cons_self a tail)
    have hatail : ∀ b ∈ tail, a.1 ≤ b.1 := by
      have h' := hsort
      rw [hsa] at h'
      exact fun b hb => (List.sorted_cons.mp h').1 b hb
    have hamin : ∀ b ∈ m, a.1 ≤ b.1 := by
      intro b hb
      have hbs : b ∈ s := hperm.mem_iff.mpr hb
      rw [hsa] at hbs
      rcases List.mem_cons.mp hbs with hba | hbt
      · rw [hba]
      · exact hatail b hbt
    have hminkey : minKey? m = some a.1 := by
      rw [minKey?_eq_min?]
      haveI : Std.Antisymm (fun (x y : Int) => x ≤ y) :=
        ⟨fun h1 h2 => le_antisymm h1 h2⟩
      refine (List.min?_eq_some_iff (fun x => le_refl x)
        (fun x y => min_choice x y) (fun x y z => le_min_iff)).mpr ⟨?_, ?_⟩
      · exact List.mem_map_of_mem Prod.fst hamem
      · intro b hb
        obtain ⟨p, hp, rfl⟩ := List.mem_map.mp hb
        exact hamin p hp
    have hget : cacheGet m a.1 = some a.2 := by
      have hfind : ∃ p, m.find? (fun p => p.1 == a.1) = some p := by
        rw [← Option.isSome_iff_exists, List.find?_isSome]
        exact ⟨a, hamem, by simp⟩
      obtain ⟨p, hp⟩ := hfind
      have hpm : p ∈ m := List.mem_of_find?_eq_some hp
      have hpk : p.1 = a.1 := by
        have := List.find?_some hp
        simpa using this
      have hpa : p = a := List.inj_on_of_nodup_map hnd hpm hamem hpk
      rw [cacheGet, hp, hpa]
      rfl
    have hpred : (fun p : Int × String => p.1 == a.1) a = true := by simp
    obtain ⟨b, l₁, l₂, hl₁, hbpred, hmdecomp, herase⟩ :=
      List.exists_of_eraseP (p := fun p => p.1 == a.1) hamem hpred
    have hba : b = a := by
      have hbk : b.1 = a.1 := by simpa using hbpred
      have hbm : b ∈ m := by
        rw [hmdecomp]
        exact List.mem_append_right _ (List.mem_cons_self _ _)
      exact List.inj_on_of_nodup_map hnd hbm hamem hbk
    subst hba
    set m' := m.eraseP (fun p => p.1 == b.1) with hm'
    have hm'perm : m'.Perm tail := by
      have h1 : m.Perm (b :: m') := by
        rw [hmdecomp]
        have := @List.perm_middle _ b l₁ l₂
        rw [herase]
        exact this
      have h2 : (b :: m').Perm (b :: tail) :=
        h1.symm.trans (hperm.symm.trans (by rw [hsa]))
      exact h2.cons_inv
    have hm'nodup : (m'.map Prod.fst).Nodup :=
      List.Nodup.sublist ((List.eraseP_sublist m).map Prod.fst) hnd
    have hm'len : m'.length ≤ n := by
      have hlen' := List.length_eraseP_of_mem (p := fun p => p.1 == b.1) hamem hpred
      have hpos : m.length ≠ 0 := by
        intro h0
        exact hme (List.eq_nil_of_length_eq_zero h0)
      rw [← hm'] at hlen'
      omega
    have hsnodup : (s.map Prod.fst).Nodup := (hperm.map Prod.fst).symm.nodup hnd
    have htailnodup : (tail.map Prod.fst).Nodup := by
      have := hsnodup
      rw [hsa, List.map_cons, List.nodup_cons] at this
      exact this.2
    have hsort' : m'.insertionSort (fun a b => a.1 ≤ b.1) = tail := by
      apply List.eq_of_perm_of_sorted (r := fun a b : Int × String => a.1 < b.1)
      · exact (List.perm_insertionSort _ m').trans hm'perm
      · apply sorted_le_nodup_lt
        · exact List.sorted_insertionSort _ m'
        · exact ((List.perm_insertionSort
            (fun a b : Int × String => a.1 ≤ b.1) m').map Prod.fst).symm.nodup hm'nodup
      · apply sorted_le_nodup_lt
        · have h' := hsort
          rw [hsa] at h'
          exact (List.sorted_cons.mp h').2
        · exact htailnodup
    have hunfold : render_text_go (n + 1) acc m =
        render_text_go n (sepAppend acc b.2) m' := by
      simp only [render_text_go, hminkey, hget, Option.getD_some, sepAppend, hm']
    rw [hunfold, ih m' (sepAppend acc b.2) hm'len hm'nodup, hsort']
    rw [hsa, List.map_cons, List.foldl_cons]

/-- C6 (amended): for a sections map with pairwise-distinct indices,
`render_text` concatenates the values in ascending index order joined by
one blank line, except that a leading run of empty values contributes
neither text nor separator (the separator is only inserted once some text
has accumulated). -/
theorem c6_render_text_ascending (m : List (Int × String))
    (hnd : (m.map Prod.fst).Nodup) :
    render_text m = joinSep
      (((m.insertionSort (fun a b => a.1 ≤ b.1)).map Prod.snd).dropWhile
        (fun v => v == "")) := by
  rw [render_text, render_text_go_sorted (m.length + 1) m "" (Nat.le_succ _) hnd,
    foldl_sepAppend_empty]

/-- C6 witness: the spec's concrete example assembles in ascending index
order with blank-line separators. -/
theorem c6_render_text_witness :
    render_text [(0, "A"), (2, "C"), (1, "B")] = "A\n\nB\n\nC" := by
  rw [c6_render_text_ascending [(0, "A"), (2, "C"), (1, "B")] (by decide)]
  decide

/-- C6 counterexample to the claim as stated: with an empty value at the
minimum index the result is not the plain two-newline join (which would be
`"\n\nB"`); the leading empty value is dropped without a separator. -/
theorem c6_join_counterexample :
    render_text [(0, ""), (1, "B")] = "B" ∧ ("B" : String) ≠ "\n\nB" :=
  ⟨by decide, by decide⟩

/-! ## C2: reconciliation is idempotent on unchanged content -/

/-- Entities created by a pass from the empty store carry clear dirty and
deletion flags. -/
theorem mkFrom_clean (h : String) :
    ∀ (n : Nat) (ss : List Section), ∀ e ∈ mkFrom h n ss,
      e.dirty = false ∧ e.dirty_marked = false ∧ e.marked_for_deletion = false := by
  intro n ss
  induction ss generalizing n with
  | nil => intro e he; simp [mkFrom] at he
  | cons s ss ih =>
    intro e he
    rcases List.mem_cons.mp he with he | he
    · subst he; exact ⟨rfl, rfl, rfl⟩
    · exact ih (n + 1) e he

/-- Resetting the dirty flags of a freshly created store is the identity. -/
theorem mkFrom_reset (h : String) :
    ∀ (n : Nat) (ss : List Section),
      (mkFrom h n ss).map (fun e => { e with dirty := false }) = mkFrom h n ss := by
  intro n ss
  induction ss generalizing n with
  | nil => rfl
  | cons s ss ih => simp [mkFrom, mkEnt, ih (n + 1)]

/-- No dirty flag is set in a freshly created store. -/
theorem mkFrom_any_dirty (h : String) :
    ∀ (n : Nat) (ss : List Section), (mkFrom h n ss).any (fun e => e.dirty) = false := by
  intro n ss
  induction ss generalizing n with
  | nil => rfl
  | cons s ss ih => simp [mkFrom, mkEnt, ih (n + 1)]

/-- The id sequence of a freshly created store is the contiguous range. -/
theorem mkFrom_map_id (h : String) :
    ∀ (n : Nat) (ss : List Section),
      (mkFrom h n ss).map (fun e => e.id) = List.range' n ss.length := by
  intro n ss
  induction ss generalizing n with
  | nil => rfl
  | cons s ss ih => simp [mkFrom, mkEnt, List.range', ih (n + 1)]

/-- Building the sections map over a freshly created store changes nothing
and hands back the full id range as the match queue. -/
theorem construct_mkFrom (h : String) (ss : List Section) :
    construct_sections_map (mkFrom h 0 ss) =
      (mkFrom h 0 ss, List.range' 0 ss.length, false) := by
  simp [construct_sections_map, mkFrom_reset, mkFrom_any_dirty, mkFrom_map_id]

/-- Processing sections with an empty match queue creates one fresh entity
per block, ids and indices counting up together. -/
theorem process_create_run (h : String) :
    ∀ (ss : List Section) (store : List EntityRec) (c d n : Nat),
      process_sections_go h
        { store := store, remaining := [], next_id := n, created := c, dirtied := d }
        ss n =
      { store := store ++ mkFrom h n ss, remaining := [], next_id := n + ss.length
        created := c + ss.length, dirtied := d } := by
  intro ss
  induction ss with
  | nil =>
    intro store c d n
    simp [process_sections_go, mkFrom]
  | cons s ss ih =>
    intro store c d n
    simp only [process_sections_go, popFirstMatch]
    rw [ih]
    congr 1
    · simp [mkFrom, mkEnt, List.append_assoc]
    · simp only [List.length_cons]
      omega
    · simp only [List.length_cons]
      omega

/-- Looking up the entity at position `pre.length` in a freshly created
store finds exactly the entity created for the block at that position. -/
theorem find_mkFrom (h : String) (s : Section) :
    ∀ (pre suf : List Section) (n0 : Nat),
      (mkFrom h n0 (pre ++ s :: suf)).find? (fun e => e.id == n0 + pre.length) =
        some (mkEnt h (n0 + pre.length) s) := by
  intro pre
  induction pre with
  | nil =>
    intro suf n0
    simp [mkFrom, List.find?, mkEnt]
  | cons p pre ih =>
    intro suf n0
    simp only [List.cons_append, mkFrom, List.find?]
    have hne : ((mkEnt h n0 p).id == n0 + (p :: pre).length) = false := by
      simp only [mkEnt, List.length_cons, beq_eq_false_iff_ne, ne_eq]
      omega
    rw [hne]
    have harith : n0 + (p :: pre).length = (n0 + 1) + pre.length := by
      simp only [List.length_cons]
      omega
    rw [harith]
    exact ih suf (n0 + 1)

/-- Processing the same blocks against the match queue of the store their
first pass created consumes every queue entry in order: each block finds
the entity created for its own position, the index comparison sees no move,
and nothing is created, dirtied, or left in the queue. -/
theorem process_matched_run (h2 h : String) (all : List Section) :
    ∀ (suf pre : List Section) (c d N : Nat), all = pre ++ suf →
      process_sections_go h2
        { store := mkFrom h 0 all, remaining := List.range' pre.length suf.length
          next_id := N, created := c, dirtied := d } suf pre.length =
      { store := mkFrom h 0 all, remaining := [], next_id := N
        created := c, dirtied := d } := by
  intro suf
  induction suf with
  | nil =>
    intro pre c d N hall
    simp [process_sections_go, List.range']
  | cons s suf ih =>
    intro pre c d N hall
    have hfind := find_mkFrom h s pre suf 0
    rw [Nat.zero_add, ← hall] at hfind
    have hrange : List.range' pre.length (s :: suf).length =
        pre.length :: List.range' (pre.length + 1) suf.length := rfl
    have hpop : popFirstMatch (mkFrom h 0 all)
        (pre.length :: List.range' (pre.length + 1) suf.length) s.raw_text =
        some (pre.length, List.range' (pre.length + 1) suf.length) := by
      simp only [popFirstMatch, hfind]
      simp [mkEnt]
    simp only [process_sections_go, hrange, hpop, hfind]
    simp only [mkEnt, bne_self_eq_false]
    have hall' : all = (pre ++ [s]) ++ suf := by
      rw [hall, List.append_assoc, List.singleton_append]
    have := ih (pre ++ [s]) c d N hall'
    rw [List.length_append, List.length_singleton] at this
    simpa using this

/-- Shape of a reconciliation pass from the empty store: every block
creates one entity; nothing matches, moves, or is tombstoned. -/
theorem reconcile_pass_from_empty (sections : List Section) (h1 : String) :
    reconcile_pass sections [] 0 h1 =
      ((mkFrom h1 0 sections, sections.length),
       { created := sections.length, dirtied := 0, marked := 0
         dup_warnings := 0 }) := by
  simp only [reconcile_pass, construct_sections_map, List.map_nil, List.any_nil,
    process_sections]
  rw [process_create_run h1 sections [] 0 0 0]
  simp [mark_remaining_sections_for_deletion]

/-- Shape of a second reconciliation pass over byte-identical content: the
store is unchanged and the report counts nothing. -/
theorem reconcile_pass_second (sections : List Section) (h1 h2 : String) (N : Nat) :
    reconcile_pass sections (mkFrom h1 0 sections) N h2 =
      ((mkFrom h1 0 sections, N),
       { created := 0, dirtied := 0, marked := 0, dup_warnings := 0 }) := by
  simp only [reconcile_pass, process_sections]
  rw [construct_mkFrom h1 sections]
  have hrun := process_matched_run h2 h1 sections sections [] 0 0 N (by simp)
  simp only [List.length_nil] at hrun
  rw [hrun]
  simp [mark_remaining_sections_for_deletion]

/-- C2: re-running the reconciliation pass on byte-identical parsed content
is a no-op on entity structure — no entity is created, no entity is marked
for deletion, no raw-text dirty flag is set, and the store is unchanged
(every parsed block matches the entity created for its own position). -/
theorem c2_reconcile_idempotent (sections : List Section) (h1 h2 : String) :
    (reconcile_pass sections (reconcile_pass sections [] 0 h1).1.1
        (reconcile_pass sections [] 0 h1).1.2 h2).2 =
      { created := 0, dirtied := 0, marked := 0, dup_warnings := 0 } ∧
    (reconcile_pass sections (reconcile_pass sections [] 0 h1).1.1
        (reconcile_pass sections [] 0 h1).1.2 h2).1.1 =
      (reconcile_pass sections [] 0 h1).1.1 ∧
    ∀ e ∈ (reconcile_pass sections (reconcile_pass sections [] 0 h1).1.1
        (reconcile_pass sections [] 0 h1).1.2 h2).1.1,
      e.dirty = false ∧ e.marked_for_deletion = false := by
  rw [reconcile_pass_from_empty sections h1]
  rw [show ((mkFrom h1 0 sections, sections.length),
      ({ created := sections.length, dirtied := 0, marked := 0
         dup_warnings := 0 } : ReconcileReport)).1.1 = mkFrom h1 0 sections from rfl]
  rw [show ((mkFrom h1 0 sections, sections.length),
      ({ created := sections.length, dirtied := 0, marked := 0
         dup_warnings := 0 } : ReconcileReport)).1.2 = sections.length from rfl]
  rw [reconcile_pass_second sections h1 h2 sections.length]
  refine ⟨rfl, rfl, ?_⟩
  intro e he
  have hclean := mkFrom_clean h1 0 sections e (by simpa using he)
  exact ⟨hclean.1, hclean.2.2⟩
